import Mathlib

/-!
Shallow embedding of `src/lib/index.mjs` of `@dwlib/base64-encoding`.

Modelling conventions:
* A JavaScript string is a `List Nat` of its UTF-16 code-unit values; a
  `Uint8Array` is a `List Nat` whose entries are below 256.
* `string[i]` (a one-character string, or `undefined` out of range) and
  `string.charCodeAt(i)` (a code unit, or `NaN` out of range) are both
  modelled by `List.get?`: `some c` is the character with code `c`,
  `none` is `undefined` / `NaN`.
* A JS `Map` is an insertion-ordered association list (`JSMap`); `Map.set`
  replaces in place or appends, `Map.get` returns `Option`.
* JS bitwise ops on the small non-negative numbers appearing here are exact
  integer arithmetic: `x >> k` is `x / 2^k`, `x & (2^k - 1)` is `x % 2^k`,
  `x << k` is `x * 2^k`; these are written with `/`, `%`, `*` below.
* Functions that can throw return `Except String`; the string is the
  message of the thrown `RangeError`.
-/

deriving instance DecidableEq for Except

abbrev JSMap (α β : Type) := List (α × β)

def mapGet [DecidableEq α] (m : JSMap α β) (k : α) : Option β :=
  match m with
  | [] => none
  | (k0, v0) :: rest => if k0 = k then some v0 else mapGet rest k

def mapHas [DecidableEq α] (m : JSMap α β) (k : α) : Bool :=
  (mapGet m k).isSome

def mapSet [DecidableEq α] (m : JSMap α β) (k : α) (v : β) : JSMap α β :=
  match m with
  | [] => [(k, v)]
  | (k0, v0) :: rest => if k0 = k then (k, v) :: rest else (k0, v0) :: mapSet rest k v

/--
The internal slots of a `Base64Encoding` instance (src/lib/index.mjs:56-61,
560-567).  `alphabetLookup` and `baseMapLookup` are keyed by `Option Nat`
because the constructor can insert the key `undefined` (modelled `none`)
when the alphabet is shorter than 64 characters; `baseMap` values are
`Option Nat` because `charCodeAt` out of range yields `NaN` (`none`).
-/
structure Table where
  alphabet : List Nat
  alphabetLookup : JSMap (Option Nat) Nat
  baseMap : JSMap Nat (Option Nat)
  baseMapLookup : JSMap (Option Nat) Nat
  padding : List Nat
  paddingCharCode : Option Nat
deriving DecidableEq, Repr

/--
The `for (let i = 0; i < 64; i++)` validation loop of the constructor
(src/lib/index.mjs:517-529).  `fuel` counts the remaining iterations
(initially 64).  Note the JS semantics kept here: for `i` beyond the
alphabet length, `alphabet[i]` is `undefined` and `charCodeAt` is `NaN`,
and `NaN < 0x21 || NaN > 0x7e` is `false`, so the range check passes.
-/
def constructLoop (alphabet : List Nat) :
    Nat → Nat → JSMap (Option Nat) Nat → JSMap Nat (Option Nat) →
    JSMap (Option Nat) Nat →
    Except String (JSMap (Option Nat) Nat × JSMap Nat (Option Nat) × JSMap (Option Nat) Nat)
  | _, 0, al, bm, bml => Except.ok (al, bm, bml)
  | i, fuel + 1, al, bm, bml =>
    let char := alphabet.get? i
    if mapHas al char then Except.error "Invalid alphabet"
    else
      let charCode := alphabet.get? i
      let bad : Bool :=
        match charCode with
        | some c => decide (c < 0x21) || decide (0x7e < c)
        | none => false
      if bad then Except.error "Invalid alphabet"
      else
        constructLoop alphabet (i + 1) fuel
          (mapSet al char i) (mapSet bm i charCode) (mapSet bml charCode i)

/--
`new Base64Encoding(alphabet, options)` (src/lib/index.mjs:506-568).
`options = none` is an omitted options argument; `options = some padOpt`
is an options object whose `padding` field is `padOpt` (`none` when the
field is `undefined`, `some p` when it is the string `p`).
-/
def construct (alphabet : List Nat) (options : Option (Option (List Nat))) :
    Except String Table :=
  let length := alphabet.length
  if length = 0 ∨ 64 < length then Except.error "Alphabet length out of range"
  else
    match constructLoop alphabet 0 64 [] [] [] with
    | Except.error e => Except.error e
    | Except.ok (al, bm, bml) =>
      let resolved : Except String (List Nat × Option Nat) :=
        match options with
        | none => Except.ok ([0x3d], some 0x3d)
        | some padOpt =>
          match padOpt with
          | none => Except.ok ([0x3d], some 0x3d)
          | some p =>
            if 1 < p.length then Except.error "Invalid padding"
            else
              match p with
              | [] => Except.ok ([], none)
              | c :: _ =>
                if c < 0x21 ∨ 0x7e < c then Except.error "Invalid padding"
                else Except.ok (p, some c)
      match resolved with
      | Except.error e => Except.error e
      | Except.ok (padding, pcc) =>
        -- `MapHas(alphabetLookup, padding)`: the map keys are one-character
        -- strings (or `undefined`), so a string argument can only match when
        -- it has length one.
        let clash : Bool :=
          match padding with
          | [c] => mapHas al (some c)
          | _ => false
        if clash then Except.error "Invalid padding"
        else
          Except.ok
            { alphabet := alphabet
              alphabetLookup := al
              baseMap := bm
              baseMapLookup := bml
              padding := padding
              paddingCharCode := pcc }

/-- Code units of `ABCDEFGHIJKLMNOPQRSTUVWXYZabcdefghijklmnopqrstuvwxyz0123456789+/`. -/
def BASIC_ALPHABET : List Nat :=
  (List.range 26).map (fun i => i + 65) ++ (List.range 26).map (fun i => i + 97) ++
    (List.range 10).map (fun i => i + 48) ++ [43, 47]

/-- Code units of `ABCDEFGHIJKLMNOPQRSTUVWXYZabcdefghijklmnopqrstuvwxyz0123456789-_`. -/
def URL_ALPHABET : List Nat :=
  (List.range 26).map (fun i => i + 65) ++ (List.range 26).map (fun i => i + 97) ++
    (List.range 10).map (fun i => i + 48) ++ [45, 95]

/--
The table the constructor builds for a given alphabet: the three lookup
maps hold one entry per loop iteration `i < 64`, in insertion order.
-/
def mkTable (alpha : List Nat) (padding : List Nat) (pcc : Option Nat) : Table :=
  { alphabet := alpha
    alphabetLookup := (List.range 64).map (fun i => (alpha.get? i, i))
    baseMap := (List.range 64).map (fun i => (i, alpha.get? i))
    baseMapLookup := (List.range 64).map (fun i => (alpha.get? i, i))
    padding := padding
    paddingCharCode := pcc }

/-- `export const BASIC = new Base64Encoding('ABC...+/')` (src/lib/index.mjs:846). -/
def basicTable : Table := mkTable BASIC_ALPHABET [0x3d] (some 0x3d)

/-- `export const URL = new Base64Encoding('ABC...-_', { padding: '' })` (src/lib/index.mjs:847-849). -/
def urlTable : Table := mkTable URL_ALPHABET [] none

/-!
## Encoding engine

`ENCODING_SHIFTS = [2, 4, 6]`, `ENCODING_MASKS = [3, 0xf, 0x3f]`,
`ENCODING_DIGITS = [4, 2, 0]` (src/lib/index.mjs:46-48).
-/

/--
One iteration of the inner encoding loop at position `j` of a group
(src/lib/index.mjs:116-124): returns `(charIndex, newCarry)` where
`charIndex = carry + (byte >> SHIFTS[j])` and
`newCarry = (byte & MASKS[j]) << DIGITS[j]`.  For `j ≥ 3` the JS table
reads give `undefined`, so the shift is 0 and the mask selects nothing;
that case is unreachable because groups have at most 3 bytes.
-/
def encStep (j b carry : Nat) : Nat × Nat :=
  match j with
  | 0 => (carry + b / 4, b % 4 * 16)
  | 1 => (carry + b / 16, b % 16 * 4)
  | 2 => (carry + b / 64, b % 64)
  | _ => (carry + b, 0)

/--
The inner loop over one group of at most 3 bytes starting at position `j`,
followed by the trailing `result += alphabet[carry]` of the outer loop
(src/lib/index.mjs:116-125): the list of emitted 6-bit indices.
-/
def encGroup : Nat → Nat → List Nat → List Nat
  | _, carry, [] => [carry]
  | j, carry, b :: rest =>
    let s := encStep j b carry
    s.1 :: encGroup (j + 1) s.2 rest

/--
The outer `for (let i = 0; i < length; i += 3)` loop (src/lib/index.mjs:113):
each iteration consumes `GetEncodingBytes(length, i) = min(3, length - i)`
bytes and emits their group's indices.
-/
def encodeIndices : List Nat → List Nat
  | [] => []
  | [a] => encGroup 0 0 [a]
  | [a, b] => encGroup 0 0 [a, b]
  | a :: b :: c :: rest => encGroup 0 0 [a, b, c] ++ encodeIndices rest

/-- `GetPaddedLength` (src/lib/index.mjs:93-96). -/
def GetPaddedLength (length : Nat) : Nat :=
  if length % 4 = 0 then length else length + (4 - length % 4)

/--
`GetCapacity` (src/lib/index.mjs:98-101).  `MathCeil(length * (4 / 3))`
computed in doubles agrees with the exact `⌈4·length/3⌉` for every
realistic length (the double `4/3` is below the rational by half an ulp,
so the product never rounds past the next integer), written here as
`(4 * length + 2) / 3` in natural division.
-/
def GetCapacity (length : Nat) (withPadding : Bool) : Nat :=
  let capacity := (4 * length + 2) / 3
  if withPadding then GetPaddedLength capacity else capacity

/--
`GetInverseCapacity` (src/lib/index.mjs:103): `MathCeil(length * 0.75)`
is exact in doubles, i.e. `⌈3·length/4⌉ = (3 * length + 3) / 4`.
-/
def GetInverseCapacity (length : Nat) : Nat := (3 * length + 3) / 4

/--
Writing a JS value obtained from `MapGet(baseMap, i)` into a `Uint8Array`
slot (src/lib/index.mjs:158): `undefined` (map miss) and `NaN` (a miss in
the alphabet string) coerce to 0, a number is taken mod 256.
-/
def storeMapByte (v : Option (Option Nat)) : Nat :=
  match v with
  | some (some c) => c % 256
  | _ => 0

/--
`Encode` (src/lib/index.mjs:105-137): ASCII-range string in, Base64 string
out.  A char code above 0xff throws `RangeError('Invalid ASCII encoding')`;
the check happens while consuming the input, so the call throws exactly
when some char code exceeds 0xff and otherwise returns the full result.
When padding is requested the padding character is
`GetSlot(target, $Padding) || '\0'`, i.e. code 0 when padding is disabled.
-/
def Encode (t : Table) (s : List Nat) (withPadding : Bool) : Except String (List Nat) :=
  if s.length = 0 then Except.ok []
  else if s.any (fun c => decide (0xff < c)) then Except.error "Invalid ASCII encoding"
  else
    let syms := (encodeIndices s).map (fun ix => t.alphabet.getD ix 0)
    if withPadding then
      Except.ok (syms ++ List.replicate (GetPaddedLength syms.length - syms.length) (t.padding.getD 0 0))
    else Except.ok syms

/--
`EncodeToBytes` (src/lib/index.mjs:139-172): ASCII-range string in, byte
sequence of symbol char codes out.  The output buffer has size
`GetCapacity(length, withPadding)`; the symbol codes are written first and,
when `withPadding` holds and `paddingCharCode` is truthy, the tail is
filled with the padding code, otherwise it keeps the `Uint8Array` zero
initialisation.
-/
def EncodeToBytes (t : Table) (s : List Nat) (withPadding : Bool) : Except String (List Nat) :=
  if s.length = 0 then Except.ok []
  else if s.any (fun c => decide (0xff < c)) then Except.error "Invalid ASCII encoding"
  else
    let capacity := GetCapacity s.length withPadding
    let syms := (encodeIndices s).map (fun ix => storeMapByte (mapGet t.baseMap ix))
    let fill : Nat :=
      if withPadding then
        match t.paddingCharCode with
        | some p => if p = 0 then 0 else p % 256
        | none => 0
      else 0
    Except.ok (syms ++ List.replicate (capacity - syms.length) fill)

/--
`EncodeBytes` (src/lib/index.mjs:277-308): `Uint8Array` in (entries below
256), byte sequence of symbol char codes out.  Same algorithm as
`EncodeToBytes` without the ASCII check, and it cannot throw.
-/
def EncodeBytes (t : Table) (b : List Nat) (withPadding : Bool) : List Nat :=
  if b.length = 0 then []
  else
    let capacity := GetCapacity b.length withPadding
    let syms := (encodeIndices b).map (fun ix => storeMapByte (mapGet t.baseMap ix))
    let fill : Nat :=
      if withPadding then
        match t.paddingCharCode with
        | some p => if p = 0 then 0 else p % 256
        | none => 0
      else 0
    syms ++ List.replicate (capacity - syms.length) fill

/--
`EncodeBytesToString` (src/lib/index.mjs:310-340): `Uint8Array` in, Base64
string out; same padding behaviour as `Encode`.
-/
def EncodeBytesToString (t : Table) (b : List Nat) (withPadding : Bool) : List Nat :=
  if b.length = 0 then []
  else
    let syms := (encodeIndices b).map (fun ix => t.alphabet.getD ix 0)
    if withPadding then
      syms ++ List.replicate (GetPaddedLength syms.length - syms.length) (t.padding.getD 0 0)
    else syms

/-!
## Method wrappers and their `withPadding` defaults

The per-call options object is modelled as `Option (Option Bool)`: the
outer `Option` is presence of the `options` argument, the inner one is
presence of the `withPadding` field.
-/

/-- `Base64Encoding.prototype.encode` (src/lib/index.mjs:580-592): default `withPadding = !!padding`. -/
def encodeMethod (t : Table) (s : List Nat) (options : Option (Option Bool)) :
    Except String (List Nat) :=
  let withPadding :=
    match options with
    | none => !t.padding.isEmpty
    | some wp =>
      match wp with
      | none => !t.padding.isEmpty
      | some b => b
  Encode t s withPadding

/-- `Base64Encoding.prototype.encodeToBytes` (src/lib/index.mjs:594-603): default `withPadding = false`. -/
def encodeToBytesMethod (t : Table) (s : List Nat) (options : Option (Option Bool)) :
    Except String (List Nat) :=
  let withPadding :=
    match options with
    | none => false
    | some wp => wp.getD false
  EncodeToBytes t s withPadding

/-- `Base64Encoding.prototype.encodeBytes` (src/lib/index.mjs:637-646): default `withPadding = false`. -/
def encodeBytesMethod (t : Table) (b : List Nat) (options : Option (Option Bool)) : List Nat :=
  let withPadding :=
    match options with
    | none => false
    | some wp => wp.getD false
  EncodeBytes t b withPadding

/-- `Base64Encoding.prototype.encodeBytesToString` (src/lib/index.mjs:648-660): default `withPadding = !!padding`. -/
def encodeBytesToStringMethod (t : Table) (b : List Nat) (options : Option (Option Bool)) :
    List Nat :=
  let withPadding :=
    match options with
    | none => !t.padding.isEmpty
    | some wp =>
      match wp with
      | none => !t.padding.isEmpty
      | some b => b
  EncodeBytesToString t b withPadding

/-!
## Decoding engine

`DECODING_SHIFTS = [2, 4, 6, 0]`, `DECODING_MASKS = [0, 0xf, 3, 0]`,
`DECODING_DIGITS = [0, 4, 2, 0]` (src/lib/index.mjs:50-52).
-/

/-- `GetDecodingBytes` (src/lib/index.mjs:88-91): `min(4, length - index)`. -/
def GetDecodingBytes (length index : Nat) : Nat :=
  min (length - index) 4

/--
One iteration of the inner decoding loop at position `j`
(src/lib/index.mjs:250-258) after the symbol's 6-bit index has been
looked up: returns `(emitted byte?, newCarry)`.  When `MASKS[j]` is
nonzero the byte `carry + (charIndex >> DIGITS[j])` is emitted and the
carry becomes `(charIndex & MASKS[j]) << SHIFTS[j]`; otherwise nothing is
emitted and `charIndex << SHIFTS[j]` is added to the carry.  For `j ≥ 4`
the table reads give `undefined` (shift 0, mask falsy), as in JS.
-/
def decStep (j idx carry : Nat) : Option Nat × Nat :=
  match j with
  | 0 => (none, carry + idx * 4)
  | 1 => (some (carry + idx / 16), idx % 16 * 16)
  | 2 => (some (carry + idx / 4), idx % 4 * 64)
  | _ => (none, carry + idx)

/-- How one decoded group ends. -/
inductive GExit where
  | completed
  | padNow
  | err
deriving DecidableEq, Repr

/--
The inner `for (let j = 0; j < bytes; j++)` loop of `DecodeToBytes`
(src/lib/index.mjs:241-258) plus, on normal completion, the trailing
`result[index++] = carry` (line 259).  `n` counts the remaining
iterations.  Returns the output written so far, the new read position and
how the group ended.  Bytes already emitted before a `PADDING` throw or a
`RangeError` stay written, as in JS.  A symbol is a padding boundary when
its char code is not in `baseMapLookup`, equals `paddingCharCode || 0`
and `ignorePadding` is false (lines 244-248); reading past the end gives
`NaN`, which matches no map key and compares unequal to everything.
-/
def decGroupGo (lookup : JSMap (Option Nat) Nat) (pcc : Nat) (ignorePadding : Bool)
    (s : List Nat) : Nat → Nat → Nat → Nat → List Nat → List Nat × Nat × GExit
  | 0, _, carry, pos, acc => (acc ++ [carry], pos, GExit.completed)
  | n + 1, j, carry, pos, acc =>
    let charCode := s.get? pos
    match mapGet lookup charCode with
    | none =>
      if charCode = some pcc ∧ ignorePadding = false then (acc, pos + 1, GExit.padNow)
      else (acc, pos + 1, GExit.err)
    | some idx =>
      match decStep j idx carry with
      | (some byte, c2) =>
        decGroupGo lookup pcc ignorePadding s n (j + 1) c2 (pos + 1) (acc ++ [byte])
      | (none, c2) =>
        decGroupGo lookup pcc ignorePadding s n (j + 1) c2 (pos + 1) acc

/--
The `while (position < length && encodedString[position] === padding)`
skip loop of the concatenation branch (src/lib/index.mjs:263-265).
`padChar` is the code of the 1-character padding string
(`GetSlot(target, $Padding) || '\0'`).  `fuel` is initialised to
`s.length`, which bounds the number of possible steps.
-/
def skipPadding (s : List Nat) (padChar : Nat) : Nat → Nat → Nat
  | 0, pos => pos
  | fuel + 1, pos =>
    if pos < s.length ∧ s.getD pos 0 = padChar then
      skipPadding s padChar fuel (pos + 1)
    else pos

/--
The outer `for (let i = 0; i < length; i += 4)` loop of `DecodeToBytes`
(src/lib/index.mjs:237-273) with its `try/catch` control flow.  `i` is
only a loop counter; `pos` is the read position.  On a padding boundary:
with `allowConcatenation` the padding run is skipped, `i = position` is
assigned and `continue` still executes the `i += 4` update; without it the
loop breaks and the bytes written so far are returned (the final
`TypedArraySlice` trim, line 274, is implicit because `acc` holds exactly
the written bytes).  A `RangeError` propagates.  `fuel` bounds the number
of iterations; the JS loop always terminates and every result proved
below is reached with fuel to spare (`none` = fuel exhausted, never the
JS behaviour).
-/
def decodeLoop (lookup : JSMap (Option Nat) Nat) (padChar pcc : Nat)
    (ignorePadding allowConcatenation : Bool) (s : List Nat) :
    Nat → Nat → Nat → List Nat → Option (Except String (List Nat))
  | 0, _, _, _ => none
  | fuel + 1, i, pos, acc =>
    if i < s.length then
      match decGroupGo lookup pcc ignorePadding s (GetDecodingBytes s.length pos) 0 0 pos acc with
      | (acc2, pos2, GExit.completed) =>
        decodeLoop lookup padChar pcc ignorePadding allowConcatenation s fuel (i + 4) pos2 acc2
      | (_, _, GExit.err) => some (Except.error "Invalid Base64 encoding")
      | (acc2, pos2, GExit.padNow) =>
        if allowConcatenation then
          let pos3 := skipPadding s padChar s.length pos2
          decodeLoop lookup padChar pcc ignorePadding allowConcatenation s fuel (pos3 + 4) pos3 acc2
        else some (Except.ok acc2)
    else some (Except.ok acc)

/--
`DecodeToBytes` (src/lib/index.mjs:225-275): Base64 string in, decoded
bytes out.  `padding` falls back to `'\0'` and `paddingCharCode` to `0`
when the table has no padding (lines 231-232).
-/
def DecodeToBytes (t : Table) (s : List Nat) (ignorePadding allowConcatenation : Bool) :
    Option (Except String (List Nat)) :=
  if s.length = 0 then some (Except.ok [])
  else
    decodeLoop t.baseMapLookup (t.padding.getD 0 0) (t.paddingCharCode.getD 0)
      ignorePadding allowConcatenation s (2 * s.length + 8) 0 0 []

/-!
## Integer codec

`EncodeInt`/`DecodeInt` (src/lib/index.mjs:465-503) use JS numbers and
`EncodeBigInt`/`DecodeBigInt` (src/lib/index.mjs:785-823) use `BigInt`
with the same algorithm (`MathFloor(carry / 64)` and truncating `BigInt`
division both are natural-number division for non-negative values).  The
`Nat` model below is exact for the `BigInt` variants and for the
fixed-width variants on values within double precision.
-/

/--
The `while (carry)` loop of `EncodeInt` (src/lib/index.mjs:472-477):
prepend `alphabet[carry % 64]`, divide the carry by 64.
-/
def EncodeIntLoop (alphabet : List Nat) : Nat → List Nat → List Nat
  | 0, result => result
  | c + 1, result =>
    EncodeIntLoop alphabet ((c + 1) / 64) (alphabet.getD ((c + 1) % 64) 0 :: result)
termination_by c => c
decreasing_by all_goals omega

/-- `EncodeInt` (src/lib/index.mjs:465-479): `0` encodes to `alphabet[0]`. -/
def EncodeInt (t : Table) (n : Nat) : List Nat :=
  if n = 0 then [t.alphabet.getD 0 0] else EncodeIntLoop t.alphabet n []

/-- `EncodeBigInt` (src/lib/index.mjs:785-799): the same algorithm over `BigInt`. -/
def EncodeBigInt (t : Table) (n : Nat) : List Nat :=
  EncodeInt t n

/--
The leading-zero skip of `DecodeInt`/`DecodeBigInt`
(src/lib/index.mjs:489-492, 809-812): drop the longest prefix of
characters equal to `alphabet[0]`.
-/
def stripZeros (zeroChar : Nat) : List Nat → List Nat
  | [] => []
  | c :: rest => if c = zeroChar then stripZeros zeroChar rest else c :: rest

/--
The accumulation loop of `DecodeInt` (src/lib/index.mjs:494-501):
`result = result * 64 + charIndex`, `NaN` (here `none`) on an
unrecognized character.
-/
def decodeIntFold (lookup : JSMap (Option Nat) Nat) (acc : Nat) : List Nat → Option Nat
  | [] => some acc
  | c :: rest =>
    match mapGet lookup (some c) with
    | none => none
    | some d => decodeIntFold lookup (acc * 64 + d) rest

/-- `DecodeInt` (src/lib/index.mjs:481-503): `NaN` (`none`) for empty or malformed input. -/
def DecodeInt (t : Table) (s : List Nat) : Option Nat :=
  if s.length = 0 then none
  else decodeIntFold t.alphabetLookup 0 (stripZeros (t.alphabet.getD 0 0) s)

/--
The accumulation loop of `DecodeBigInt` (src/lib/index.mjs:814-821): the
same fold, but an unrecognized character throws
`RangeError('Invalid Base64 encoded integer')`.
-/
def decodeBigIntFold (lookup : JSMap (Option Nat) Nat) (acc : Nat) :
    List Nat → Except String Nat
  | [] => Except.ok acc
  | c :: rest =>
    match mapGet lookup (some c) with
    | none => Except.error "Invalid Base64 encoded integer"
    | some d => decodeBigIntFold lookup (acc * 64 + d) rest

/-- `DecodeBigInt` (src/lib/index.mjs:801-823): throws on empty or malformed input. -/
def DecodeBigInt (t : Table) (s : List Nat) : Except String Nat :=
  if s.length = 0 then Except.error "Invalid Base64 encoded integer"
  else decodeBigIntFold t.alphabetLookup 0 (stripZeros (t.alphabet.getD 0 0) s)

/-- The 63-character alphabet obtained by dropping the final `/` of the basic one. -/
def ALPHABET63 : List Nat := BASIC_ALPHABET.take 63


/--
Specification helper for the integer round trip: the accumulator value
after the decoding fold has consumed the base-64 digits of `c` starting
from `acc`.
-/
def foldAcc (acc : Nat) : Nat → Nat
  | 0 => acc
  | c + 1 => foldAcc acc ((c + 1) / 64) * 64 + (c + 1) % 64
termination_by c => c
decreasing_by all_goals omega

/-!
## Theorems
-/

theorem construct_basicTable : construct BASIC_ALPHABET none = Except.ok basicTable := by
  decide

theorem construct_urlTable :
    construct URL_ALPHABET (some (some [])) = Except.ok urlTable := by
  decide


theorem getD_mem_of_lt (l : List Nat) (i : Nat) (h : i < l.length) : l.getD i 0 ∈ l := by
  induction l generalizing i with
  | nil => simp at h
  | cons a rest ih =>
    match i with
    | 0 => simp [List.getD]
    | i + 1 =>
      simp only [List.getD_cons_succ]
      exact List.mem_cons_of_mem a (ih i (by simpa using h))

theorem encodeIndices_length (s : List Nat) :
    (encodeIndices s).length = (4 * s.length + 2) / 3 := by
  induction s using encodeIndices.induct with
  | case1 => simp [encodeIndices]
  | case2 a => simp [encodeIndices, encGroup, encStep]
  | case3 a b => simp [encodeIndices, encGroup, encStep]
  | case4 a b c rest ih =>
    simp only [encodeIndices, encGroup, encStep, List.length_append, List.length_cons,
      List.length_nil, ih]
    omega

theorem encodeIndices_lt_64 (s : List Nat) (h : ∀ c ∈ s, c < 256) :
    ∀ ix ∈ encodeIndices s, ix < 64 := by
  induction s using encodeIndices.induct with
  | case1 => simp [encodeIndices]
  | case2 a =>
    have ha := h a (by simp)
    simp only [encodeIndices, encGroup, encStep]
    intro ix hix
    simp at hix
    omega
  | case3 a b =>
    have ha := h a (by simp)
    have hb := h b (by simp)
    simp only [encodeIndices, encGroup, encStep]
    intro ix hix
    simp at hix
    omega
  | case4 a b c rest ih =>
    have ha := h a (by simp)
    have hb := h b (by simp)
    have hc := h c (by simp)
    intro ix hix
    simp only [encodeIndices, encGroup, encStep, List.mem_append] at hix
    rcases hix with hix | hix
    · simp at hix
      omega
    · exact ih (fun x hx => h x (by simp [hx])) ix hix

theorem le_getPaddedLength (n : Nat) : n ≤ GetPaddedLength n := by
  unfold GetPaddedLength; split <;> omega

theorem getPaddedLength_mod (n : Nat) : GetPaddedLength n % 4 = 0 := by
  unfold GetPaddedLength; split <;> omega

/--
Claim C9: for every input whose char codes fit in a byte, the output of
encoding with `withPadding = true` has length a multiple of 4 (both the
string-output `Encode` and the byte-output `EncodeToBytes`), and the
output of encoding with `withPadding = false` never contains the padding
character.  The table hypotheses (64 alphabet characters, `baseMap`
mapping each index to its character code, printable codes, and a padding
character outside the alphabet) hold for any constructed instance with
padding.
-/
theorem base64_c9_padding (t : Table) (s : List Nat)
    (hbytes : ∀ c ∈ s, c < 256)
    (hlen : t.alphabet.length = 64)
    (hbm : ∀ i, i < 64 → mapGet t.baseMap i = some (some (t.alphabet.getD i 0)))
    (hrange : ∀ c ∈ t.alphabet, c ≤ 0x7e)
    (p : Nat) (hpad : t.padding = [p]) (hnp : p ∉ t.alphabet) :
    (∃ o, Encode t s true = Except.ok o ∧ o.length % 4 = 0) ∧
    (∃ o, EncodeToBytes t s true = Except.ok o ∧ o.length % 4 = 0) ∧
    (∃ o, Encode t s false = Except.ok o ∧ p ∉ o) ∧
    (∃ o, EncodeToBytes t s false = Except.ok o ∧ p ∉ o) := by
  have hany : (s.any fun c => decide (0xff < c)) = false := by
    simp only [List.any_eq_false, decide_eq_true_eq, not_lt]
    intro c hc
    exact Nat.le_of_lt_succ (hbytes c hc)
  by_cases hs : s.length = 0
  · refine ⟨⟨[], ?_, by simp⟩, ⟨[], ?_, by simp⟩, ⟨[], ?_, by simp⟩, ⟨[], ?_, by simp⟩⟩ <;>
      simp [Encode, EncodeToBytes, hs]
  · have hsymlen : ((encodeIndices s).map (fun ix => t.alphabet.getD ix 0)).length
        = (4 * s.length + 2) / 3 := by
      simp [encodeIndices_length]
    have hbsymlen : ((encodeIndices s).map (fun ix => storeMapByte (mapGet t.baseMap ix))).length
        = (4 * s.length + 2) / 3 := by
      simp [encodeIndices_length]
    refine ⟨?_, ?_, ?_, ?_⟩
    · refine ⟨_, by simp only [Encode, hs, hany]; rfl, ?_⟩
      simp only [List.length_append, List.length_replicate]
      have h1 := le_getPaddedLength ((encodeIndices s).map (fun ix => t.alphabet.getD ix 0)).length
      have h2 := getPaddedLength_mod ((encodeIndices s).map (fun ix => t.alphabet.getD ix 0)).length
      omega
    · refine ⟨_, by simp only [EncodeToBytes, hs, hany]; rfl, ?_⟩
      have hcap : GetCapacity s.length true = GetPaddedLength ((4 * s.length + 2) / 3) := by
        simp [GetCapacity]
      simp only [List.length_append, List.length_replicate, hcap, hbsymlen]
      have h1 := le_getPaddedLength ((4 * s.length + 2) / 3)
      have h2 := getPaddedLength_mod ((4 * s.length + 2) / 3)
      omega
    · refine ⟨_, by simp only [Encode, hs, hany]; rfl, ?_⟩
      intro hp
      rcases List.mem_map.mp hp with ⟨ix, hix, heq⟩
      have h64 : ix < 64 := encodeIndices_lt_64 s hbytes ix hix
      have : t.alphabet.getD ix 0 ∈ t.alphabet := getD_mem_of_lt _ _ (by omega)
      exact hnp (heq ▸ this)
    · refine ⟨_, by simp only [EncodeToBytes, hs, hany]; rfl, ?_⟩
      intro hp
      rcases List.mem_append.mp hp with hp | hp
      · rcases List.mem_map.mp hp with ⟨ix, hix, hgeq⟩
        have h64 : ix < 64 := encodeIndices_lt_64 s hbytes ix hix
        have hmem : t.alphabet.getD ix 0 ∈ t.alphabet := getD_mem_of_lt _ _ (by omega)
        have hsmall : t.alphabet.getD ix 0 < 256 :=
          Nat.lt_of_le_of_lt (hrange _ hmem) (by omega)
        rw [hbm ix h64] at hgeq
        simp only [storeMapByte, Nat.mod_eq_of_lt hsmall] at hgeq
        exact hnp (hgeq ▸ hmem)
      · rcases List.mem_replicate.mp hp with ⟨hcount, rfl⟩
        have : GetCapacity s.length false = (4 * s.length + 2) / 3 := by
          simp [GetCapacity]
        omega

theorem getPaddedLength_lt (n : Nat) (h : n % 4 ≠ 0) : n < GetPaddedLength n := by
  unfold GetPaddedLength; split <;> omega

/--
Claim C10: for an instance whose table has padding disabled, encoding
with `withPadding = true` an input whose symbol count is not a multiple
of 4 (equivalently, input length not a multiple of 3) yields the
unpadded output followed by U+0000 / 0x00 fill up to the padded length:
the string variant appends NUL characters until the length is a multiple
of 4, and the byte variants return a buffer of the padded capacity whose
trailing positions stay 0x00; in each case the result is strictly longer
than the unpadded output, i.e. not trimmed to the symbol count.
-/
theorem base64_c10_nul_padding (t : Table) (s : List Nat)
    (hpad : t.padding = []) (hpcc : t.paddingCharCode = none)
    (hbytes : ∀ c ∈ s, c < 256)
    (hne : ¬ s.length = 0)
    (hmod : s.length % 3 ≠ 0) :
    (∃ o u, Encode t s true = Except.ok o ∧ Encode t s false = Except.ok u ∧
       o = u ++ List.replicate (o.length - u.length) 0 ∧
       u.length < o.length ∧ o.length % 4 = 0) ∧
    (∃ o u, EncodeToBytes t s true = Except.ok o ∧ EncodeToBytes t s false = Except.ok u ∧
       o = u ++ List.replicate (o.length - u.length) 0 ∧
       u.length < o.length ∧ o.length = GetCapacity s.length true) ∧
    (∃ o u, EncodeBytes t s true = o ∧ EncodeBytes t s false = u ∧
       o = u ++ List.replicate (o.length - u.length) 0 ∧
       u.length < o.length ∧ o.length = GetCapacity s.length true) := by
  have hany : (s.any fun c => decide (0xff < c)) = false := by
    simp only [List.any_eq_false, decide_eq_true_eq, not_lt]
    intro c hc
    exact Nat.le_of_lt_succ (hbytes c hc)
  have hnb : ((encodeIndices s).map (fun ix => t.alphabet.getD ix 0)).length
      = (4 * s.length + 2) / 3 := by
    simp [encodeIndices_length]
  have hbnb : ((encodeIndices s).map (fun ix => storeMapByte (mapGet t.baseMap ix))).length
      = (4 * s.length + 2) / 3 := by
    simp [encodeIndices_length]
  have h4 : (4 * s.length + 2) / 3 % 4 ≠ 0 := by omega
  have hlt := getPaddedLength_lt ((4 * s.length + 2) / 3) h4
  have hmod4 := getPaddedLength_mod ((4 * s.length + 2) / 3)
  have hcapT : GetCapacity s.length true = GetPaddedLength ((4 * s.length + 2) / 3) := by
    simp [GetCapacity]
  have e1 : Encode t s true = Except.ok
      ((encodeIndices s).map (fun ix => t.alphabet.getD ix 0) ++
        List.replicate (GetPaddedLength ((4 * s.length + 2) / 3) - (4 * s.length + 2) / 3) 0) := by
    simp [Encode, hne, hany, hpad, encodeIndices_length]
  have e2 : Encode t s false = Except.ok
      ((encodeIndices s).map (fun ix => t.alphabet.getD ix 0)) := by
    simp [Encode, hne, hany]
  have e3 : EncodeToBytes t s true = Except.ok
      ((encodeIndices s).map (fun ix => storeMapByte (mapGet t.baseMap ix)) ++
        List.replicate (GetPaddedLength ((4 * s.length + 2) / 3) - (4 * s.length + 2) / 3) 0) := by
    simp [EncodeToBytes, hne, hany, hpcc, GetCapacity, encodeIndices_length]
  have e4 : EncodeToBytes t s false = Except.ok
      ((encodeIndices s).map (fun ix => storeMapByte (mapGet t.baseMap ix))) := by
    simp [EncodeToBytes, hne, hany, GetCapacity, encodeIndices_length]
  have e5 : EncodeBytes t s true =
      (encodeIndices s).map (fun ix => storeMapByte (mapGet t.baseMap ix)) ++
        List.replicate (GetPaddedLength ((4 * s.length + 2) / 3) - (4 * s.length + 2) / 3) 0 := by
    simp [EncodeBytes, hne, hpcc, GetCapacity, encodeIndices_length]
  have e6 : EncodeBytes t s false =
      (encodeIndices s).map (fun ix => storeMapByte (mapGet t.baseMap ix)) := by
    simp [EncodeBytes, hne, GetCapacity, encodeIndices_length]
  refine ⟨⟨_, _, e1, e2, ?_, ?_, ?_⟩, ⟨_, _, e3, e4, ?_, ?_, ?_⟩, ⟨_, _, e5, e6, ?_, ?_, ?_⟩⟩
  · simp only [List.length_append, List.length_replicate, Nat.add_sub_cancel_left]
  · simp only [List.length_append, List.length_replicate, hnb]
    omega
  · simp only [List.length_append, List.length_replicate, hnb]
    omega
  · simp only [List.length_append, List.length_replicate, Nat.add_sub_cancel_left]
  · simp only [List.length_append, List.length_replicate, hbnb]
    omega
  · simp only [List.length_append, List.length_replicate, hbnb]
    omega
  · simp only [List.length_append, List.length_replicate, Nat.add_sub_cancel_left]
  · simp only [List.length_append, List.length_replicate, hbnb]
    omega
  · simp only [List.length_append, List.length_replicate, hbnb]
    omega

theorem foldAcc_zero (c : Nat) : foldAcc 0 c = c := by
  induction c using Nat.strong_induction_on with
  | _ c ih =>
    match c with
    | 0 => simp [foldAcc]
    | c + 1 =>
      rw [foldAcc, ih ((c + 1) / 64) (by omega)]
      omega

theorem decodeIntFold_encodeIntLoop (lookup : JSMap (Option Nat) Nat) (alpha : List Nat)
    (h1 : ∀ d, d < 64 → mapGet lookup (some (alpha.getD d 0)) = some d) :
    ∀ c res acc, decodeIntFold lookup acc (EncodeIntLoop alpha c res) =
      decodeIntFold lookup (foldAcc acc c) res := by
  intro c
  induction c using Nat.strong_induction_on with
  | _ c ih =>
    intro res acc
    match c with
    | 0 => simp [EncodeIntLoop, foldAcc]
    | c + 1 =>
      rw [EncodeIntLoop, ih ((c + 1) / 64) (by omega), foldAcc]
      simp only [decodeIntFold, h1 ((c + 1) % 64) (by omega)]

theorem encodeIntLoop_head (alpha : List Nat) :
    ∀ c res, 0 < c → ∃ d rest, 0 < d ∧ d < 64 ∧
      EncodeIntLoop alpha c res = alpha.getD d 0 :: rest := by
  intro c
  induction c using Nat.strong_induction_on with
  | _ c ih =>
    intro res hc
    match c, hc with
    | c + 1, _ =>
      rw [EncodeIntLoop]
      by_cases hq : (c + 1) / 64 = 0
      · refine ⟨(c + 1) % 64, res, by omega, by omega, ?_⟩
        rw [hq, EncodeIntLoop]
      · exact ih ((c + 1) / 64) (by omega) _ (by omega)

theorem decodeBigIntFold_eq (lookup : JSMap (Option Nat) Nat) :
    ∀ l acc, decodeBigIntFold lookup acc l =
      match decodeIntFold lookup acc l with
      | some v => Except.ok v
      | none => Except.error "Invalid Base64 encoded integer" := by
  intro l
  induction l with
  | nil => intro acc; simp [decodeBigIntFold, decodeIntFold]
  | cons x rest ih =>
    intro acc
    simp only [decodeBigIntFold, decodeIntFold]
    cases mapGet lookup (some x) with
    | none => rfl
    | some d => exact ih _

/--
Claim C7: for every non-negative integer `n`,
`decodeInt(encodeInt(n)) == n` — exactly for the arbitrary-precision
variant, and for the fixed-width variant within double precision, both
of which the `Nat` model embeds — and `encodeInt(0)` is the alphabet's
first character.  The hypotheses are the alphabet-table invariants of any
constructed instance: looking up the `d`-th alphabet character yields
`d`, and no nonzero digit's character equals the zero digit's character.
-/
theorem base64_c7_int_roundtrip (t : Table)
    (h1 : ∀ d, d < 64 → mapGet t.alphabetLookup (some (t.alphabet.getD d 0)) = some d)
    (h2 : ∀ d, d < 64 → 0 < d → t.alphabet.getD d 0 ≠ t.alphabet.getD 0 0)
    (n : Nat) :
    DecodeInt t (EncodeInt t n) = some n ∧
    DecodeBigInt t (EncodeBigInt t n) = Except.ok n ∧
    EncodeInt t 0 = [t.alphabet.getD 0 0] := by
  refine ⟨?_, ?_, by simp [EncodeInt]⟩ <;>
  · match n with
    | 0 =>
      simp [EncodeInt, EncodeBigInt, DecodeInt, DecodeBigInt, stripZeros, decodeIntFold,
        decodeBigIntFold]
    | n + 1 =>
      obtain ⟨d, rest, hd0, hd64, heq⟩ := encodeIntLoop_head t.alphabet (n + 1) [] (by omega)
      have henc : EncodeInt t (n + 1) = EncodeIntLoop t.alphabet (n + 1) [] := by
        simp [EncodeInt]
      have hlen : (EncodeIntLoop t.alphabet (n + 1) []).length ≠ 0 := by
        rw [heq]; simp
      have hstrip : stripZeros (t.alphabet.getD 0 0) (EncodeIntLoop t.alphabet (n + 1) []) =
          EncodeIntLoop t.alphabet (n + 1) [] := by
        rw [heq, stripZeros, if_neg (h2 d hd64 hd0)]
      have key : decodeIntFold t.alphabetLookup 0 (EncodeIntLoop t.alphabet (n + 1) []) =
          some (n + 1) := by
        rw [decodeIntFold_encodeIntLoop t.alphabetLookup t.alphabet h1 (n + 1) [] 0]
        simp [decodeIntFold, foldAcc_zero]
      simp only [EncodeBigInt, henc, DecodeInt, DecodeBigInt, hlen, if_false, hstrip, key,
        decodeBigIntFold_eq t.alphabetLookup]

/-- Witness for `base64_c7_int_roundtrip`: the basic instance at `n = 123456`. -/
theorem base64_c7_witness :
    DecodeInt basicTable (EncodeInt basicTable 123456) = some 123456 :=
  (base64_c7_int_roundtrip basicTable (by decide) (by decide) 123456).1

theorem mem_stripZeros_of_ne (z c : Nat) (hcz : c ≠ z) :
    ∀ s : List Nat, c ∈ s → c ∈ stripZeros z s := by
  intro s
  induction s with
  | nil => intro h; exact absurd h (List.not_mem_nil c)
  | cons x rest ih =>
    intro h
    rw [stripZeros]
    by_cases hx : x = z
    · rw [if_pos hx]
      rcases List.mem_cons.mp h with rfl | h
      · exact absurd hx hcz
      · exact ih h
    · rw [if_neg hx]
      exact h

theorem decodeIntFold_of_bad (lookup : JSMap (Option Nat) Nat) :
    ∀ (l : List Nat) (acc c : Nat), c ∈ l → mapGet lookup (some c) = none →
      decodeIntFold lookup acc l = none := by
  intro l
  induction l with
  | nil => intro acc c h; exact absurd h (List.not_mem_nil c)
  | cons x rest ih =>
    intro acc c h hbad
    rw [decodeIntFold]
    rcases List.mem_cons.mp h with rfl | h
    · rw [hbad]
    · cases hx : mapGet lookup (some x) with
      | none => rfl
      | some d => exact ih _ c h hbad

/--
Claim C8: integer decoding of an input containing a symbol outside the
alphabet diverges by variant: the fixed-width `decodeInt` returns the
not-a-number sentinel (`none` here), while the arbitrary-precision
`decodeBigInt` throws `RangeError('Invalid Base64 encoded integer')`.
The hypothesis `h0` (the zero digit's character is in the lookup) holds
for every constructed instance.
-/
theorem base64_c8_int_error_asymmetry (t : Table)
    (h0 : mapGet t.alphabetLookup (some (t.alphabet.getD 0 0)) = some 0)
    (s : List Nat) (c : Nat) (hc : c ∈ s)
    (hbad : mapGet t.alphabetLookup (some c) = none) :
    DecodeInt t s = none ∧
    DecodeBigInt t s = Except.error "Invalid Base64 encoded integer" := by
  have hcz : c ≠ t.alphabet.getD 0 0 := by
    intro h
    rw [h, h0] at hbad
    exact Option.noConfusion hbad
  have hlen : s.length ≠ 0 := by
    cases s with
    | nil => exact absurd hc (List.not_mem_nil c)
    | cons x rest => simp
  have hmem : c ∈ stripZeros (t.alphabet.getD 0 0) s := mem_stripZeros_of_ne _ _ hcz s hc
  have hfold := decodeIntFold_of_bad t.alphabetLookup _ 0 c hmem hbad
  constructor
  · simp only [DecodeInt, hlen, if_false, hfold]
  · simp only [DecodeBigInt, hlen, if_false, decodeBigIntFold_eq t.alphabetLookup, hfold]

/-- Witness for `base64_c8_int_error_asymmetry`: the basic instance on the string a dollar sign, code 0x24. -/
theorem base64_c8_witness :
    DecodeInt basicTable [0x24] = none ∧
    DecodeBigInt basicTable [0x24] = Except.error "Invalid Base64 encoded integer" :=
  base64_c8_int_error_asymmetry basicTable (by decide) [0x24] 0x24 (by decide) (by decide)

/-- Witness for `base64_c9_padding`: the basic instance on the one-character input `a`. -/
theorem base64_c9_witness :
    (∃ o, Encode basicTable [0x61] true = Except.ok o ∧ o.length % 4 = 0) ∧
    (∃ o, EncodeToBytes basicTable [0x61] true = Except.ok o ∧ o.length % 4 = 0) ∧
    (∃ o, Encode basicTable [0x61] false = Except.ok o ∧ 0x3d ∉ o) ∧
    (∃ o, EncodeToBytes basicTable [0x61] false = Except.ok o ∧ 0x3d ∉ o) :=
  base64_c9_padding basicTable [0x61] (by decide) (by decide) (by decide) (by decide)
    0x3d (by decide) (by decide)

/-- Witness for `base64_c10_nul_padding`: the URL-safe instance on the one-character input `a`. -/
theorem base64_c10_witness :
    (∃ o u, Encode urlTable [0x61] true = Except.ok o ∧ Encode urlTable [0x61] false = Except.ok u ∧
       o = u ++ List.replicate (o.length - u.length) 0 ∧
       u.length < o.length ∧ o.length % 4 = 0) ∧
    (∃ o u, EncodeToBytes urlTable [0x61] true = Except.ok o ∧
       EncodeToBytes urlTable [0x61] false = Except.ok u ∧
       o = u ++ List.replicate (o.length - u.length) 0 ∧
       u.length < o.length ∧ o.length = GetCapacity 1 true) ∧
    (∃ o u, EncodeBytes urlTable [0x61] true = o ∧ EncodeBytes urlTable [0x61] false = u ∧
       o = u ++ List.replicate (o.length - u.length) 0 ∧
       u.length < o.length ∧ o.length = GetCapacity 1 true) :=
  base64_c10_nul_padding urlTable [0x61] (by decide) (by decide) (by decide) (by decide)
    (by decide)

/-!
## Claim theorems: concrete evaluations
-/

/--
Claim C1: decoding the Base64 encoding of a byte sequence under matching
padding settings should return it unchanged for the URL-safe instance as
well.  It does not: for the URL-safe (no padding) instance, encoding
`[0x4D, 0x61]` with `withPadding = false` yields `TWE` and decoding that
with the instance defaults (`ignorePadding = true`) yields
`[0x4D, 0x61, 0x00]` — the decoder unconditionally emits the leftover
carry after the final short group, appending a spurious `0x00` byte.
-/
theorem base64_c1_roundtrip_failure :
    EncodeBytesToString urlTable [0x4d, 0x61] false = [84, 87, 69] ∧
    DecodeToBytes urlTable [84, 87, 69] true false =
      some (Except.ok [0x4d, 0x61, 0x00]) ∧
    ([0x4d, 0x61, 0x00] : List Nat) ≠ [0x4d, 0x61] := by
  decide

/--
Claim C2 counterexample: the claim says a group in which a single symbol
was consumed produces no output byte.  Decoding the one-symbol string `A`
(basic instance, default options) produces the byte `0x00`, not an empty
output.
-/
theorem base64_c2_counterexample :
    DecodeToBytes basicTable [65] false false = some (Except.ok [0]) ∧
    DecodeToBytes basicTable [65] false false ≠ some (Except.ok []) := by
  decide

/--
Claim C3: construction should fail for every alphabet whose length is not
exactly 64.  It does not: a 63-character alphabet is accepted.  The
length guard is `!length || length > 64`; in the validation loop the
64th character is `undefined` with char code `NaN`, which passes the
range check (`NaN < 0x21` and `NaN > 0x7e` are both false) and is
inserted into the lookup maps once without tripping the duplicate check,
so the constructor returns an instance.
-/
theorem base64_c3_length63_accepted :
    ALPHABET63.length = 63 ∧
    construct ALPHABET63 none = Except.ok (mkTable ALPHABET63 [0x3d] (some 0x3d)) := by
  decide

/--
Claim C4 counterexample: the claim says every encode variant defaults
`withPadding` to whether the instance has a padding symbol.  For the
basic instance (padding `=`), `encodeToBytes` with the options argument
omitted does not behave like `withPadding = true`: it returns the
2-symbol unpadded buffer, not the 4-byte padded one.
-/
theorem base64_c4_counterexample :
    encodeToBytesMethod basicTable [0x61] none = Except.ok [89, 81] ∧
    EncodeToBytes basicTable [0x61] true = Except.ok [89, 81, 61, 61] ∧
    encodeToBytesMethod basicTable [0x61] none ≠ EncodeToBytes basicTable [0x61] true := by
  decide

/--
Claim C5: with the basic instance, `AAAA==` decodes to `[0, 0, 0]`;
decoding `AAAA==AAAA==` with `allowConcatenation = true` yields the two
segment payloads concatenated, and with `allowConcatenation = false`
only the first segment's bytes (the input after the first padding
boundary is ignored, not an error).
-/
theorem base64_c5_concatenation :
    DecodeToBytes basicTable [65, 65, 65, 65, 61, 61] false false =
      some (Except.ok [0, 0, 0]) ∧
    DecodeToBytes basicTable ([65, 65, 65, 65, 61, 61] ++ [65, 65, 65, 65, 61, 61]) false true =
      some (Except.ok ([0, 0, 0] ++ [0, 0, 0])) ∧
    DecodeToBytes basicTable ([65, 65, 65, 65, 61, 61] ++ [65, 65, 65, 65, 61, 61]) false false =
      some (Except.ok [0, 0, 0]) := by
  decide

/--
Claim C6: basic instance concrete vectors.  `[0x4D, 0x61, 0x6E]` encodes
to `TWFu`; `[0x4D, 0x61]` encodes to `TWE=` with padding on and `TWE`
with padding off; `TWE=` decodes to `[0x4D, 0x61]`.
(Code units: T=84, W=87, F=70, u=117, E=69, ==61.)
-/
theorem base64_c6_vectors :
    EncodeBytesToString basicTable [0x4d, 0x61, 0x6e] true = [84, 87, 70, 117] ∧
    EncodeBytesToString basicTable [0x4d, 0x61] true = [84, 87, 69, 61] ∧
    EncodeBytesToString basicTable [0x4d, 0x61] false = [84, 87, 69] ∧
    DecodeToBytes basicTable [84, 87, 69, 61] false false = some (Except.ok [0x4d, 0x61]) := by
  decide

/--
Claim C4 amended: the `withPadding` option is honored uniformly when
supplied, but the defaults split by output type: the string-output
variants (`encode`, `encodeBytesToString`) default to whether the
instance's table has a padding symbol, while the byte-output variants
(`encodeToBytes`, `encodeBytes`) default to `false` regardless of the
table.
-/
theorem base64_c4_amended (t : Table) (s b : List Nat) :
    encodeMethod t s none = Encode t s (!t.padding.isEmpty) ∧
    encodeBytesToStringMethod t b none = EncodeBytesToString t b (!t.padding.isEmpty) ∧
    encodeToBytesMethod t s none = EncodeToBytes t s false ∧
    encodeBytesMethod t b none = EncodeBytes t b false ∧
    (∀ w, encodeMethod t s (some (some w)) = Encode t s w) ∧
    (∀ w, encodeBytesToStringMethod t b (some (some w)) = EncodeBytesToString t b w) ∧
    (∀ w, encodeToBytesMethod t s (some (some w)) = EncodeToBytes t s w) ∧
    (∀ w, encodeBytesMethod t b (some (some w)) = EncodeBytes t b w) := by
  refine ⟨rfl, rfl, rfl, rfl, fun w => rfl, fun w => rfl, fun w => rfl, fun w => rfl⟩

/--
Claim C2 amended: after each group the decoder emits the accumulated
carry as one final byte unconditionally — including a group consisting of
a single leftover symbol, which produces exactly one byte, its 6-bit
index shifted left by two (not zero bytes).  Proved for every symbol of
the basic and URL-safe instances.
-/
theorem base64_c2_amended (d : Nat) (h : d < 64) :
    DecodeToBytes basicTable [BASIC_ALPHABET.getD d 0] false false =
      some (Except.ok [d * 4]) ∧
    DecodeToBytes urlTable [URL_ALPHABET.getD d 0] true false =
      some (Except.ok [d * 4]) := by
  revert d h
  decide

/-- Witness for `base64_c2_amended` at the symbol `B` (index 1). -/
theorem base64_c2_witness :
    DecodeToBytes basicTable [BASIC_ALPHABET.getD 1 0] false false =
      some (Except.ok [1 * 4]) :=
  (base64_c2_amended 1 (by decide)).1
